import Mathlib

/-!
Shallow embedding of the logpy structured-logging library (Go), covering the
parts the specification's claims are about: severity levels and parsing
(level.go), the field/entry/event model (field and event files), the base and
fan-out handlers (handler file), the console and JSON formatters (formatter
file), the daily-rotation file handler (daily_handler.go), and the path
derivation in the logger constructor (logger.go).

External collaborators (the OS clock, the filesystem, `time.Time` rendering,
`runtime.Caller`) enter the model as explicit inputs: the wall-clock date and
the success of a file open are parameters of the rotation step, a `time.Time`
value is modelled by its formatting function, and opaque external values
(float64, time.Time, Duration, Any) are carried by their `%v` rendering.
-/

namespace Logpy

/-! ## Levels (src/level.go) -/

/-- Go: `DebugLevel Level = iota` — `Level` is an `int8`; we model it as `Int`. -/
def DebugLevel : Int := 0

/-- Go: `InfoLevel`. -/
def InfoLevel : Int := 1

/-- Go: `WarnLevel`. -/
def WarnLevel : Int := 2

/-- Go: `ErrorLevel`. -/
def ErrorLevel : Int := 3

/-- Go: `func (l Level) String() string` (switch over the constants). -/
def levelString (l : Int) : String :=
  if l = DebugLevel then "DEBUG"
  else if l = InfoLevel then "INFO"
  else if l = WarnLevel then "WARN"
  else if l = ErrorLevel then "ERROR"
  else "UNKNOWN"

/-- ASCII-range upper-casing of one character, matching what Go's
`strings.ToUpper` does on ASCII input (per-rune `unicode.ToUpper`). -/
def toUpperChar (c : Char) : Char :=
  if 97 ≤ c.toNat ∧ c.toNat ≤ 122 then Char.ofNat (c.toNat - 32) else c

/-- Go: `strings.ToUpper`, restricted to the ASCII mapping. -/
def toUpperStr (s : String) : String := String.mk (s.data.map toUpperChar)

/-- Go: `func ParseLevel(s string) (Level, error)`. The error component is
modelled as `Option String` (`none` = the Go `nil` error). -/
def ParseLevel (s : String) : Int × Option String :=
  let u := toUpperStr s
  if u = "DEBUG" then (DebugLevel, none)
  else if u = "INFO" then (InfoLevel, none)
  else if u = "WARN" ∨ u = "WARNING" then (WarnLevel, none)
  else if u = "ERROR" then (ErrorLevel, none)
  else (InfoLevel, none)

/-- The spec names the levels by their position in the enum listing
(Debug < Info < Warn < Error); this enumerates them with that ordinal. -/
inductive LevelName where
  | debug
  | info
  | warn
  | error
deriving DecidableEq

/-- Ordinal position of a level name in the listing Debug, Info, Warn, Error. -/
def LevelName.ordinal : LevelName → Nat
  | .debug => 0
  | .info => 1
  | .warn => 2
  | .error => 3

/-- The Go constant (`int8` value) each level name denotes. -/
def LevelName.toLevel : LevelName → Int
  | .debug => DebugLevel
  | .info => InfoLevel
  | .warn => WarnLevel
  | .error => ErrorLevel

/-! ## Fields and entries (field and entry files) -/

/-- Go: `FieldType uint8` and its constants. -/
inductive FieldType where
  | StringType
  | IntType
  | Int64Type
  | Float64Type
  | BoolType
  | TimeType
  | DurationType
  | ErrorType
  | AnyType
deriving DecidableEq

/-- The `interface{}` payload of a `Field`. Go ints (int and int64) are
modelled by `Int`, the `nil` payload of an absent error by `vnil`, and
opaque external values (float64, time.Time, Duration, Any) by `vext` carrying
their `%v` rendering. -/
inductive FVal where
  | vstr (s : String)
  | vint (n : Int)
  | vbool (b : Bool)
  | vnil
  | vext (rendered : String)
deriving DecidableEq

/-- Go: `Field` — a typed key-value pair (`Type` is spelt `Typ` here because
`Type` is reserved in Lean). -/
structure Field where
  Key : String
  Typ : FieldType
  Value : FVal
deriving DecidableEq

/-- Go: `func String(key, val string) Field`. -/
def FString (key val : String) : Field := ⟨key, .StringType, .vstr val⟩

/-- Go: `func Int(key string, val int) Field`. -/
def FInt (key : String) (val : Int) : Field := ⟨key, .IntType, .vint val⟩

/-- Go: `func Int64(key string, val int64) Field`. -/
def FInt64 (key : String) (val : Int) : Field := ⟨key, .Int64Type, .vint val⟩

/-- Go: `func Float64(key string, val float64) Field` — the float is carried
opaquely by its rendering. -/
def FFloat64 (key rendered : String) : Field := ⟨key, .Float64Type, .vext rendered⟩

/-- Go: `func Bool(key string, val bool) Field`. -/
def FBool (key : String) (val : Bool) : Field := ⟨key, .BoolType, .vbool val⟩

/-- Go: `func Time(key string, val time.Time) Field` — the time value is
carried opaquely by its rendering. -/
def FTime (key rendered : String) : Field := ⟨key, .TimeType, .vext rendered⟩

/-- Go: `func Duration(key string, val time.Duration) Field` — carried
opaquely by its rendering. -/
def FDuration (key rendered : String) : Field := ⟨key, .DurationType, .vext rendered⟩

/-- Go: `func Error(err error) Field` — an absent error stores a nil payload,
a present one stores `err.Error()` (a string). -/
def FError (err : Option String) : Field :=
  match err with
  | none => ⟨"error", .ErrorType, .vnil⟩
  | some m => ⟨"error", .ErrorType, .vstr m⟩

/-- Go: `func Any(key string, val interface{}) Field` — carried opaquely. -/
def FAny (key rendered : String) : Field := ⟨key, .AnyType, .vext rendered⟩

/-- Go: `CallerInfo` (caller file). -/
structure CallerInfo where
  File : String
  Line : Int
  Function : String
deriving DecidableEq

/-- A Go `time.Time` value, modelled by its `Format` method: the map from a
layout string to the rendered timestamp. -/
structure GoTime where
  format : String → String

/-- Go: `Entry` — the finalized log record handed to a handler. -/
structure Entry where
  Time : GoTime
  Level : Int
  Message : String
  Fields : List Field
  ContextFields : List Field
  Caller : CallerInfo

/-! ## Handlers (handler file) -/

/-- Go: `baseHandler` — the level threshold; the formatter and writer
collaborators are modelled by the call-counting abstraction below. -/
structure BaseHandler where
  level : Int

/-- Go: `func (h *baseHandler) Enabled(level Level) bool { return level >= h.level }`. -/
def BaseHandler.Enabled (h : BaseHandler) (level : Int) : Bool :=
  decide (level ≥ h.level)

/-- Observable effect of `baseHandler.Handle`: how many calls it makes into
the Formatter and into the Writer. The code re-checks `Enabled` and returns
early with no calls when it fails; otherwise it formats once and writes once. -/
def handleCalls (h : BaseHandler) (entry : Entry) : Nat × Nat :=
  if h.Enabled entry.Level then (1, 1) else (0, 0)

/-! ## Logger and the Event builder (logger.go and the event file) -/

/-- Go: `Logger` — a handler plus persistent context fields. -/
structure MLogger where
  handler : BaseHandler
  fields : List Field

/-- Go: `Event` — the fluent builder. -/
structure Event where
  logger : MLogger
  level : Int
  fields : List Field
  timestamp : GoTime
  enabled : Bool

/-- Go: `newEvent` — computes `enabled` once, from the handler's threshold;
`now` is the sampled wall clock (`time.Now()`). -/
def newEvent (lg : MLogger) (level : Int) (now : GoTime) : Event :=
  { logger := lg, level := level, fields := [], timestamp := now,
    enabled := lg.handler.Enabled level }

/-- Go: `func (e *Event) Str(key, val string) *Event`. -/
def Event.Str (e : Event) (key val : String) : Event :=
  if ¬ e.enabled then e else { e with fields := e.fields ++ [FString key val] }

/-- Go: `func (e *Event) Int(key string, val int) *Event`. -/
def Event.Int (e : Event) (key : String) (val : Int) : Event :=
  if ¬ e.enabled then e else { e with fields := e.fields ++ [FInt key val] }

/-- Go: `func (e *Event) Int64(key string, val int64) *Event`. -/
def Event.Int64 (e : Event) (key : String) (val : ℤ) : Event :=
  if ¬ e.enabled then e else { e with fields := e.fields ++ [FInt64 key val] }

/-- Go: `func (e *Event) Float64(key string, val float64) *Event`. -/
def Event.Float64 (e : Event) (key rendered : String) : Event :=
  if ¬ e.enabled then e else { e with fields := e.fields ++ [FFloat64 key rendered] }

/-- Go: `func (e *Event) Bool(key string, val bool) *Event`. -/
def Event.Bool (e : Event) (key : String) (val : Bool) : Event :=
  if ¬ e.enabled then e else { e with fields := e.fields ++ [FBool key val] }

/-- Go: `func (e *Event) Time(key string, val time.Time) *Event`. -/
def Event.Time (e : Event) (key rendered : String) : Event :=
  if ¬ e.enabled then e else { e with fields := e.fields ++ [FTime key rendered] }

/-- Go: `func (e *Event) Dur(key string, val time.Duration) *Event`. -/
def Event.Dur (e : Event) (key rendered : String) : Event :=
  if ¬ e.enabled then e else { e with fields := e.fields ++ [FDuration key rendered] }

/-- Go: `func (e *Event) Err(err error) *Event`. -/
def Event.Err (e : Event) (err : Option String) : Event :=
  if ¬ e.enabled then e else { e with fields := e.fields ++ [FError err] }

/-- Go: `func (e *Event) Any(key string, val interface{}) *Event`. -/
def Event.Any (e : Event) (key rendered : String) : Event :=
  if ¬ e.enabled then e else { e with fields := e.fields ++ [FAny key rendered] }

/-- Go: `func (e *Event) Fields(fields ...Field) *Event`. -/
def Event.Fields (e : Event) (fs : List Field) : Event :=
  if ¬ e.enabled then e else { e with fields := e.fields ++ fs }

/-- Go: `func (e *Event) Msg(msg string)` — assembles the Entry (caller
location is the external `runtime.Caller` lookup, passed in) and hands it to
the logger's handler; returns `none` when the event is disabled, i.e. no
entry reaches the handler. -/
def Event.Msg (e : Event) (msg : String) (caller : CallerInfo) : Option Entry :=
  if ¬ e.enabled then none
  else some { Time := e.timestamp, Level := e.level, Message := msg,
              Fields := e.fields, ContextFields := e.logger.fields,
              Caller := caller }

/-- Go: `func (e *Event) Msgf(format string, args ...interface{})` — the
argument list is modelled opaquely by the renderings of its members. -/
def Event.Msgf (e : Event) (format : String) (args : List String)
    (caller : CallerInfo) : Option Entry :=
  if ¬ e.enabled then none
  else
    let msg := format
    let msg := if args.length > 0 then format else msg
    e.Msg msg caller

/-- Go: `func (e *Event) Send() { e.Msg("") }`. -/
def Event.Send (e : Event) (caller : CallerInfo) : Option Entry :=
  e.Msg "" caller

/-- Formatter/Writer calls produced by the terminal `Msg` call: none when the
entry never reaches the handler, otherwise whatever `baseHandler.Handle`
makes. -/
def msgCalls (e : Event) (msg : String) (caller : CallerInfo) : Nat × Nat :=
  match e.Msg msg caller with
  | none => (0, 0)
  | some entry => handleCalls e.logger.handler entry

/-- Formatter/Writer calls produced by the terminal `Send` call. -/
def sendCalls (e : Event) (caller : CallerInfo) : Nat × Nat :=
  match e.Send caller with
  | none => (0, 0)
  | some entry => handleCalls e.logger.handler entry


/-! ## Fan-out handler (handler file, `MultiHandler`) -/

/-- A child handler of the fan-out combinator, modelled by the observable of
its `Handle` method on a given entry: the writes it performs (its own
filtering decides whether that list is empty) and the error it returns. -/
structure ChildH where
  run : Entry → List String × Option String

/-- The loop body of `MultiHandler.Handle`: Go iterates over the children,
calling `handler.Handle(entry)` on each, overwriting `lastErr` whenever a
child returns a non-nil error. `outs` accumulates the trace of child writes. -/
def multiHandleLoop (entry : Entry) : List ChildH → List String → Option String →
    List String × Option String
  | [], outs, lastErr => (outs, lastErr)
  | c :: cs, outs, lastErr =>
    let r := c.run entry
    match r.2 with
    | some e => multiHandleLoop entry cs (outs ++ r.1) (some e)
    | none => multiHandleLoop entry cs (outs ++ r.1) lastErr

/-- Go: `func (h *MultiHandler) Handle(entry Entry) error` — dispatches the
entry to every child and returns `lastErr`. -/
def MultiHandler.Handle (children : List ChildH) (entry : Entry) :
    List String × Option String :=
  multiHandleLoop entry children [] none

/-! ## Console formatter (formatter file) -/

/-- Go: the `colorCyan` constant (`"\033[36m"`). -/
def colorCyan : String := "\u001b[36m"

/-- Go: `ColorConfig`. -/
structure ColorConfig where
  Debug : String
  Info : String
  Warn : String
  Error : String
  Reset : String
deriving DecidableEq

/-- Go: `%v` rendering of a field payload: strings verbatim, ints in decimal,
bools as `true`/`false`, a nil payload as `<nil>`, opaque externals by the
rendering they carry. -/
def fmtV : FVal → String
  | .vstr s => s
  | .vint n => toString n
  | .vbool b => if b then "true" else "false"
  | .vnil => "<nil>"
  | .vext r => r

/-- Go: `%-5s` — left-justified padding to width 5 (no truncation). -/
def padRight (n : Nat) (s : String) : String :=
  s ++ String.mk (List.replicate (n - s.length) ' ')

/-- Go: `ConsoleFormatter` (the `ColorConfig` field is spelt `colorCfg` to
avoid shadowing the type name). -/
structure ConsoleFormatter where
  TimestampFormat : String
  AddCaller : Bool
  UseColor : Bool
  colorCfg : ColorConfig

/-- One field segment of the console line: Go appends
`fmt.Sprintf(" %s=%v", field.Key, field.Value)` for each field. -/
def fieldSeg (fl : Field) : String := " " ++ fl.Key ++ "=" ++ fmtV fl.Value

/-- The per-field append loop of `ConsoleFormatter.Format` (`output` is the
accumulator it extends). -/
def fieldsLoop (acc : String) : List Field → String
  | [] => acc
  | fl :: rest => fieldsLoop (acc ++ fieldSeg fl) rest

/-- Go: `func (f *ConsoleFormatter) Format(entry Entry) ([]byte, error)` — the
returned byte slice as a string (the error is always nil in the source). -/
def consoleFormat (f : ConsoleFormatter) (entry : Entry) : String :=
  let levelColor :=
    if f.UseColor then
      if entry.Level = DebugLevel then f.colorCfg.Debug
      else if entry.Level = InfoLevel then f.colorCfg.Info
      else if entry.Level = WarnLevel then f.colorCfg.Warn
      else if entry.Level = ErrorLevel then f.colorCfg.Error
      else ""
    else ""
  let tsFmt := if f.TimestampFormat = "" then "2006-01-02 15:04:05" else f.TimestampFormat
  let timestamp := entry.Time.format tsFmt
  let out :=
    if f.UseColor then
      colorCyan ++ "[" ++ timestamp ++ "] " ++ levelColor
        ++ padRight 5 (levelString entry.Level) ++ f.colorCfg.Reset
    else
      "[" ++ timestamp ++ "] " ++ padRight 5 (levelString entry.Level)
  let out := if f.AddCaller then
      out ++ " " ++ entry.Caller.File ++ ":" ++ toString entry.Caller.Line
    else out
  let out := if entry.Message ≠ "" then out ++ " " ++ entry.Message else out
  let out := if entry.Fields.length > 0 then fieldsLoop out entry.Fields else out
  let out := if entry.ContextFields.length > 0 then
      fieldsLoop (out ++ " |") entry.ContextFields
    else out
  out ++ "\n"

/-- The fixed head of the console line (timestamp, level, caller, message):
everything `ConsoleFormatter.Format` emits before the field groups. -/
def consoleHead (f : ConsoleFormatter) (entry : Entry) : String :=
  let levelColor :=
    if f.UseColor then
      if entry.Level = DebugLevel then f.colorCfg.Debug
      else if entry.Level = InfoLevel then f.colorCfg.Info
      else if entry.Level = WarnLevel then f.colorCfg.Warn
      else if entry.Level = ErrorLevel then f.colorCfg.Error
      else ""
    else ""
  let tsFmt := if f.TimestampFormat = "" then "2006-01-02 15:04:05" else f.TimestampFormat
  let timestamp := entry.Time.format tsFmt
  let out :=
    if f.UseColor then
      colorCyan ++ "[" ++ timestamp ++ "] " ++ levelColor
        ++ padRight 5 (levelString entry.Level) ++ f.colorCfg.Reset
    else
      "[" ++ timestamp ++ "] " ++ padRight 5 (levelString entry.Level)
  let out := if f.AddCaller then
      out ++ " " ++ entry.Caller.File ++ ":" ++ toString entry.Caller.Line
    else out
  if entry.Message ≠ "" then out ++ " " ++ entry.Message else out

/-- A field group rendered in insertion order (the spec-side reading of the
append loop). -/
def fieldsGroup : List Field → String
  | [] => ""
  | fl :: rest => fieldSeg fl ++ fieldsGroup rest

/-! ## JSON formatter (formatter file) -/

/-- A JSON value as produced by `json.Marshal` on the formatter-built map:
strings, ints, bools, null, an opaque marshalled form for external values,
and one level of nested object (the `context` object). -/
inductive JVal where
  | jstr (s : String)
  | jint (n : Int)
  | jbool (b : Bool)
  | jnull
  | jraw (r : String)
  | jobj (kvs : List (String × JVal))

/-- Go map assignment `m[k] = v`: overwrite the binding if the key is
present, append it otherwise. -/
def mapSet (m : List (String × JVal)) (k : String) (v : JVal) :
    List (String × JVal) :=
  if m.any (fun kv => decide (kv.1 = k)) then
    m.map (fun kv => if kv.1 = k then (k, v) else kv)
  else m ++ [(k, v)]

/-- Go map lookup `m[k]`. -/
def mapGet (m : List (String × JVal)) (k : String) : Option JVal :=
  match m with
  | [] => none
  | kv :: rest => if kv.1 = k then some kv.2 else mapGet rest k

/-- The JSON value a field payload marshals to. -/
def fieldJVal : FVal → JVal
  | .vstr s => .jstr s
  | .vint n => .jint n
  | .vbool b => .jbool b
  | .vnil => .jnull
  | .vext r => .jraw r

/-- The per-field loop `for _, field := range ... { m[field.Key] = field.Value }`. -/
def fieldsIntoMap (m : List (String × JVal)) : List Field → List (String × JVal)
  | [] => m
  | fl :: rest => fieldsIntoMap (mapSet m fl.Key (fieldJVal fl.Value)) rest

/-- Go: `JSONFormatter`. -/
structure JSONFormatter where
  TimestampFormat : String
  AddCaller : Bool

/-- Go: `func (f *JSONFormatter) Format(entry Entry) ([]byte, error)`, up to
serialization: the map the formatter builds and hands to `json.Marshal`
(which serializes it as one object, newline-terminated). -/
def jsonBuild (f : JSONFormatter) (entry : Entry) : List (String × JVal) :=
  let m : List (String × JVal) := []
  let tsFmt := if f.TimestampFormat = "" then "2006-01-02T15:04:05Z07:00" else f.TimestampFormat
  let m := mapSet m "timestamp" (.jstr (entry.Time.format tsFmt))
  let m := mapSet m "level" (.jstr (levelString entry.Level))
  let m := if entry.Message ≠ "" then mapSet m "message" (.jstr entry.Message) else m
  let m := if f.AddCaller then
      mapSet m "caller" (.jstr (entry.Caller.File ++ ":" ++ toString entry.Caller.Line))
    else m
  let m := fieldsIntoMap m entry.Fields
  let m := if entry.ContextFields.length > 0 then
      mapSet m "context" (.jobj (fieldsIntoMap [] entry.ContextFields))
    else m
  m


/-! ## Path helpers (Go `path/filepath` and logger.go `splitPath`) -/

/-- The segment loop of Go `filepath.Clean` (lexical processing): empty and
`.` segments are dropped, `..` pops the previous segment (kept verbatim when
nothing poppable remains and the path is relative, dropped at the root of an
absolute path). `acc` holds processed segments in reverse. -/
def cleanSegsAux (rooted : Bool) (acc : List String) : List String → List String
  | [] => acc
  | s :: rest =>
    if s = "" ∨ s = "." then cleanSegsAux rooted acc rest
    else if s = ".." then
      match acc with
      | t :: acc2 =>
        if t = ".." then cleanSegsAux rooted (s :: t :: acc2) rest
        else cleanSegsAux rooted acc2 rest
      | [] => if rooted then cleanSegsAux rooted [] rest
              else cleanSegsAux rooted [".."] rest
    else cleanSegsAux rooted (s :: acc) rest

/-- Splitting a character list at `/` (the list-level behaviour of Go's
`strings.Split(p, "/")`). -/
def splitSlash : List Char → List (List Char)
  | [] => [[]]
  | c :: rest =>
    let r := splitSlash rest
    if c = '/' then [] :: r
    else
      match r with
      | s :: ss => (c :: s) :: ss
      | [] => [[c]]

/-- Joining segments with `/` between them. -/
def joinSlash : List String → String
  | [] => ""
  | [s] => s
  | s :: rest => s ++ "/" ++ joinSlash rest

/-- Whether the path is absolute (begins with the separator). -/
def isRooted (p : String) : Bool :=
  match p.data with
  | '/' :: _ => true
  | _ => false

/-- Go: `filepath.Clean` (Unix separator). -/
def pathClean (p : String) : String :=
  if p = "" then "."
  else
    let rooted := isRooted p
    let segs := (cleanSegsAux rooted [] ((splitSlash p.data).map String.mk)).reverse
    let body := joinSlash segs
    if rooted then (if body = "" then "/" else "/" ++ body)
    else (if body = "" then "." else body)

/-- Go: `filepath.Join(dir, name)` — drops leading empty elements, then
`Clean`s the `/`-joined rest; all-empty input gives `""`. -/
def filepathJoin (dir name : String) : String :=
  if dir = "" then (if name = "" then "" else pathClean name)
  else pathClean (dir ++ "/" ++ name)

/-- Go: `filepath.Ext` — the suffix beginning at the final dot in the final
path element, empty if there is none. Scans the reversed character list;
`acc` holds the characters already passed, in order. -/
def extAux (acc : List Char) : List Char → String
  | [] => ""
  | c :: rest =>
    if c = '/' then ""
    else if c = '.' then String.mk ('.' :: acc)
    else extAux (c :: acc) rest

/-- Go: `filepath.Ext(name)`. -/
def fileExt (p : String) : String := extAux [] p.data.reverse

/-- The backwards scan of logger.go `splitPath`: finds the last `/` of the
reversed input; `acc` holds the characters after it, in order. -/
def splitAtLastSlash (acc : List Char) : List Char → Option (String × String)
  | [] => none
  | c :: rest =>
    if c = '/' then some (String.mk rest.reverse, String.mk acc)
    else splitAtLastSlash (c :: acc) rest

/-- Go: `func splitPath(path string) (dir, file string)` (logger.go) — splits
at the last `/`, or returns `(".", path)` when there is none. -/
def splitPath (path : String) : String × String :=
  match splitAtLastSlash [] path.data.reverse with
  | some df => df
  | none => (".", path)

/-- The daily-rotation branch of `NewWithConfig` (logger.go): derive the base
directory and file prefix from `cfg.OutputPath`. A non-empty path ending in
`.log` (and longer than 4 bytes) is split into directory and prefix; any
other non-empty path is a bare directory; the empty path keeps the defaults
`./logs` and no prefix. -/
def deriveDailyPath (outputPath : String) : String × String :=
  if outputPath ≠ "" then
    if outputPath.data.length > 4 ∧
        String.mk (outputPath.data.drop (outputPath.data.length - 4)) = ".log" then
      let df := splitPath outputPath
      (df.1, String.mk (df.2.data.take (df.2.data.length - 4)))
    else (outputPath, "")
  else ("./logs", "")

/-! ## Daily-rotation file handler (src/daily_handler.go) -/

/-- An open-file handle owned by the daily handler: the date whose file it
was opened for, and whether the OS-level file is still open. A Go
`*os.File` that has been `Close`d is still a non-nil pointer, which this
models as a handle with `isOpen = false`. -/
structure FileHandle where
  date : String
  isOpen : Bool
deriving DecidableEq

/-- The mutable state of `DailyFileHandler`: `currentDate` (Go zero value
`""` before the first rotation) and `currentFile` (`none` = nil pointer). -/
structure DailyState where
  currentDate : String
  currentFile : Option FileHandle
deriving DecidableEq

/-- Go: `buildFilename` (daily_handler.go) — `prefix + "-" + date + ".log"`
when a prefix is configured, else `date + ".log"`, joined to the base
directory. -/
def buildFilename (baseDir pfx date : String) : String :=
  let filename := if pfx ≠ "" then pfx ++ "-" ++ date ++ ".log" else date ++ ".log"
  filepathJoin baseDir filename

/-- Go: `rotateIfNeeded` — `today` is the formatted wall-clock date and
`openOk` tells whether the `os.OpenFile` call would succeed. Returns the new
state and whether the check succeeded (`false` = the open failed and an
error was returned). A close failure is logged and ignored, so closing
always transitions the held handle to closed. On a failed open the fields
are left as they were: the handle still points at the now-closed file. -/
def rotateIfNeeded (st : DailyState) (today : String) (openOk : Bool) :
    DailyState × Bool :=
  if st.currentDate = today ∧ st.currentFile.isSome then (st, true)
  else
    let st1 : DailyState :=
      match st.currentFile with
      | some f => { st with currentFile := some { f with isOpen := false } }
      | none => st
    if openOk then
      ({ currentDate := today, currentFile := some { date := today, isOpen := true } }, true)
    else (st1, false)

/-- Go: `func (h *DailyFileHandler) Write(p []byte) (n int, err error)` —
rotation check first (its failure aborts the write), then a write on
`currentFile`, which succeeds iff the handle is open. Returns the new state
and whether the whole write succeeded. -/
def DailyFileHandler.Write (st : DailyState) (today : String) (openOk : Bool) :
    DailyState × Bool :=
  let r := rotateIfNeeded st today openOk
  if r.2 then
    match r.1.currentFile with
    | some f => (r.1, f.isOpen)
    | none => (r.1, false)
  else (r.1, false)

/-- Go: `func (h *DailyFileHandler) Close() error` — closes and nils out the
current file if there is one. -/
def DailyFileHandler.Close (st : DailyState) : DailyState :=
  { st with currentFile := none }

/-- Go: `NewDailyFileHandler` — starts from the zero state and runs the
initial `rotateIfNeeded`; a failure makes construction return an error
(`none`: no handler is produced). -/
def NewDailyFileHandler (today : String) (openOk : Bool) : Option DailyState :=
  let r := rotateIfNeeded { currentDate := "", currentFile := none } today openOk
  if r.2 then some r.1 else none

/-- The spec's state invariant for the daily handler: the current file
handle is non-null iff a file for the stored current date is open — i.e. a
held handle is open and is the file of `currentDate`. -/
def dailyInv (st : DailyState) : Bool :=
  match st.currentFile with
  | some f => f.isOpen && st.currentDate == f.date
  | none => true

/-! ## Retention cleanup (src/daily_handler.go, cleanupOldFiles) -/

/-- One entry of the base directory listing, as the cleanup pass sees it:
its name, whether it is a sub-directory, whether `file.Info()` succeeds, and
its last-modified time in seconds. -/
structure DirEntry where
  name : String
  isDir : Bool
  infoOk : Bool
  modTime : Int
deriving DecidableEq

/-- Seconds per day: `AddDate(0, 0, -n)` is modelled as subtracting
`n * 86400` seconds. -/
def secPerDay : Int := 86400

/-- The loop of `cleanupOldFiles`: skip sub-directories, skip entries whose
extension is not `.log`, skip entries whose `Info()` errors, and remove
(collect) every remaining entry modified strictly before the cutoff. -/
def cleanupLoop (cutoff : Int) : List DirEntry → List String
  | [] => []
  | e :: rest =>
    if e.isDir then cleanupLoop cutoff rest
    else if fileExt e.name ≠ ".log" then cleanupLoop cutoff rest
    else if ¬ e.infoOk then cleanupLoop cutoff rest
    else if e.modTime < cutoff then e.name :: cleanupLoop cutoff rest
    else cleanupLoop cutoff rest

/-- Go: `func (h *DailyFileHandler) cleanupOldFiles()` — computes
`cutoffDate := now - maxDaysToKeep days`, lists the base directory and
removes old `.log` files; the returned list is the names it removes, in
listing order. -/
def cleanupOldFiles (maxDaysToKeep : Int) (now : Int) (entries : List DirEntry) :
    List String :=
  cleanupLoop (now - maxDaysToKeep * secPerDay) entries


/-! ## Claim C4: Enabled is threshold comparison in ordinal order -/

/-- C4: for every handler threshold and every level, `Enabled(level)` is true
iff the level's ordinal is at least the threshold's ordinal, with ordinals
Debug < Info < Warn < Error. -/
theorem claim_C4_enabled_iff_ordinal :
    ∀ t l : LevelName,
      BaseHandler.Enabled { level := t.toLevel } l.toLevel =
        decide (t.ordinal ≤ l.ordinal) := by
  intro t l
  cases t <;> cases l <;> decide

/-! ## Claim C9: level parsing -/

/-- C9: level parsing never returns an error, depends only on the
upper-cased input (case-insensitivity), maps the five recognized names
(WARNING aliasing Warn) to their levels, and resolves every unrecognized
name to Info. -/
theorem claim_C9_parse_level :
    (∀ s, (ParseLevel s).2 = none) ∧
    (∀ s t, toUpperStr s = toUpperStr t → ParseLevel s = ParseLevel t) ∧
    (∀ s, toUpperStr s = "DEBUG" → ParseLevel s = (DebugLevel, none)) ∧
    (∀ s, toUpperStr s = "INFO" → ParseLevel s = (InfoLevel, none)) ∧
    (∀ s, toUpperStr s = "WARN" → ParseLevel s = (WarnLevel, none)) ∧
    (∀ s, toUpperStr s = "WARNING" → ParseLevel s = (WarnLevel, none)) ∧
    (∀ s, toUpperStr s = "ERROR" → ParseLevel s = (ErrorLevel, none)) ∧
    (∀ s, toUpperStr s ∉ (["DEBUG", "INFO", "WARN", "WARNING", "ERROR"] : List String) →
      ParseLevel s = (InfoLevel, none)) := by
  refine ⟨?_, ?_, ?_, ?_, ?_, ?_, ?_, ?_⟩
  · intro s
    simp only [ParseLevel]
    split <;> try rfl
    split <;> try rfl
    split <;> try rfl
    split <;> rfl
  · intro s t h
    unfold ParseLevel
    rw [h]
  · intro s h; unfold ParseLevel; rw [h]; rfl
  · intro s h; unfold ParseLevel; rw [h]; rfl
  · intro s h; unfold ParseLevel; rw [h]; rfl
  · intro s h; unfold ParseLevel; rw [h]; rfl
  · intro s h; unfold ParseLevel; rw [h]; rfl
  · intro s h
    simp only [List.mem_cons, List.mem_singleton, not_or] at h
    obtain ⟨h1, h2, h3, h4, h5⟩ := h
    unfold ParseLevel
    simp [h1, h2, h3, h4, h5]

/-- C9 witness: concrete inputs exercising the case-insensitivity, the
WARNING alias, and the unrecognized-name default. -/
theorem claim_C9_parse_level_witness :
    ParseLevel "WaRn" = ParseLevel "warN" ∧
    ParseLevel "Warning" = (WarnLevel, none) ∧
    ParseLevel "bogus" = (InfoLevel, none) :=
  ⟨claim_C9_parse_level.2.1 "WaRn" "warN" (by decide),
   claim_C9_parse_level.2.2.2.2.2.1 "Warning" (by decide),
   claim_C9_parse_level.2.2.2.2.2.2.2 "bogus" (by decide)⟩

/-! ## Claim C2: daily filename construction and path derivation -/

/-- C2: the target filename is `prefix + "-" + date + ".log"` when the
prefix is non-empty and `date + ".log"` otherwise, joined to the base
directory; configured path `./logs/myservice.log` derives base directory
`./logs` and prefix `myservice`, and the file written on 2025-11-17 is
`logs/myservice-2025-11-17.log` — the same file as the claimed
`./logs/myservice-2025-11-17.log`, to which Go's `filepath.Join` applies its
own lexical `Clean` (dropping the leading `./`). -/
theorem claim_C2_daily_filename :
    (∀ baseDir pfx date : String,
      buildFilename baseDir pfx date =
        filepathJoin baseDir
          (if pfx = "" then date ++ ".log" else pfx ++ "-" ++ date ++ ".log")) ∧
    deriveDailyPath "./logs/myservice.log" = ("./logs", "myservice") ∧
    buildFilename "./logs" "myservice" "2025-11-17" = "logs/myservice-2025-11-17.log" ∧
    pathClean "./logs/myservice-2025-11-17.log" = "logs/myservice-2025-11-17.log" := by
  refine ⟨?_, by decide, by decide, by decide⟩
  intro baseDir pfx date
  by_cases h : pfx = "" <;> simp [buildFilename, h]

/-! ## Claim C10: Msgf discards its formatting arguments -/

/-- C10: for every enabled event, format string and non-empty argument list,
the terminal `Msgf` call produces an entry whose message is the raw format
string verbatim; the arguments never influence the result at all. -/
theorem claim_C10_msgf_discards_args :
    (∀ (e : Event) (format : String) (args : List String) (caller : CallerInfo),
      e.enabled = true → args ≠ [] →
      (e.Msgf format args caller).map Entry.Message = some format) ∧
    (∀ (e : Event) (format : String) (args args2 : List String) (caller : CallerInfo),
      e.Msgf format args caller = e.Msgf format args2 caller) := by
  constructor
  · intro e format args caller hen hargs
    simp [Event.Msgf, Event.Msg, hen]
  · intro e format args args2 caller
    by_cases hen : e.enabled = true
    · simp [Event.Msgf, Event.Msg, hen]
    · simp at hen
      simp [Event.Msgf, hen]

/-- C10 witness: an enabled Info-level event on a Debug-threshold handler,
with a one-element argument list; the message is the format string. -/
theorem claim_C10_msgf_discards_args_witness :
    ((newEvent ⟨⟨DebugLevel⟩, []⟩ InfoLevel ⟨fun _ => "t"⟩).Msgf "hi %d" ["7"]
      ⟨"main.go", 3, "main"⟩).map Entry.Message = some "hi %d" :=
  claim_C10_msgf_discards_args.1 (newEvent ⟨⟨DebugLevel⟩, []⟩ InfoLevel ⟨fun _ => "t"⟩)
    "hi %d" ["7"] ⟨"main.go", 3, "main"⟩ (by decide) (by decide)


/-! ## Claim C6: fan-out dispatch and last-error retention -/

/-- The optional last element of a cons: the head when the tail is empty,
the tail's last element otherwise. -/
theorem getLast?_cons_match {α : Type} (a : α) (l : List α) :
    (a :: l).getLast? =
      match l.getLast? with
      | none => some a
      | some x => some x := by
  cases l with
  | nil => rfl
  | cons b l =>
    rw [List.getLast?_cons_cons]
    have hne : (b :: l) ≠ [] := by simp
    have hsome : (b :: l).getLast?.isSome := List.getLast?_isSome.mpr hne
    obtain ⟨x, hx⟩ := Option.isSome_iff_exists.mp hsome
    rw [hx]

/-- The fan-out loop dispatches to every remaining child in order,
accumulating their writes, and ends with the last non-nil child error, or
the incoming `lastErr` when no remaining child errs. -/
theorem multiHandleLoop_spec (entry : Entry) (cs : List ChildH)
    (outs : List String) (lastErr : Option String) :
    multiHandleLoop entry cs outs lastErr =
      (outs ++ (cs.map fun c => (c.run entry).1).flatten,
       match (cs.filterMap fun c => (c.run entry).2).getLast? with
       | some e => some e
       | none => lastErr) := by
  induction cs generalizing outs lastErr with
  | nil => simp [multiHandleLoop]
  | cons c cs ih =>
    rw [List.map_cons, List.flatten_cons, List.filterMap_cons]
    cases h : (c.run entry).2 with
    | none =>
      rw [multiHandleLoop]
      simp only [h]
      rw [ih]
      simp [List.append_assoc]
    | some e =>
      rw [multiHandleLoop]
      simp only [h]
      rw [ih]
      rw [getLast?_cons_match]
      cases hl : (cs.filterMap fun c => (c.run entry).2).getLast? <;>
        simp [List.append_assoc]

/-- C6: the fan-out handler's `Handle` dispatches the entry to every child
unconditionally — the trace is the concatenation of every child's own
writes, in child order — and returns the last non-nil child error, or nil
when no child errs; earlier child errors are dropped. -/
theorem claim_C6_multi_last_error :
    ∀ (children : List ChildH) (entry : Entry),
      MultiHandler.Handle children entry =
        ((children.map fun c => (c.run entry).1).flatten,
         (children.filterMap fun c => (c.run entry).2).getLast?) := by
  intro children entry
  rw [MultiHandler.Handle, multiHandleLoop_spec]
  cases hl : (children.filterMap fun c => (c.run entry).2).getLast? <;> simp

/-! ## Claim C3: retention cleanup -/

/-- The cleanup loop collects exactly the names of the non-directory `.log`
entries with readable info whose modification time is strictly before the
cutoff. -/
theorem cleanupLoop_spec (cutoff : Int) (entries : List DirEntry) :
    cleanupLoop cutoff entries =
      (entries.filter fun e =>
        !e.isDir && (fileExt e.name == ".log") && e.infoOk &&
          decide (e.modTime < cutoff)).map DirEntry.name := by
  induction entries with
  | nil => rfl
  | cons e rest ih =>
    rw [cleanupLoop, List.filter_cons]
    cases h1 : e.isDir with
    | true => simp [h1, ih]
    | false =>
      simp only [h1, Bool.not_false, Bool.true_and, if_neg (by simp [h1] : ¬e.isDir = true)]
      by_cases h2 : fileExt e.name = ".log"
      · cases h3 : e.infoOk with
        | false => simp [h2, h3, ih]
        | true =>
          by_cases h4 : e.modTime < cutoff
          · simp [h2, h3, h4, ih]
          · simp [h2, h3, h4, ih]
      · simp [h2, ih]

/-- The 17 files `2025-11-01.log` … `2025-11-17.log`, each a plain file with
readable info, modified on its own date. -/
def novEntries : List DirEntry :=
  (List.range 17).map fun i =>
    { name := "2025-11-" ++ (if i + 1 < 10 then "0" else "") ++ toString (i + 1) ++ ".log",
      isDir := false, infoOk := true, modTime := ((i : Int) + 1) * secPerDay }

/-- C3: a cleanup pass with positive retention deletes exactly the
non-directory entries with a `.log` suffix whose last-modified time is
strictly before now minus the retention period (entries are otherwise left
in place, since only collected names are removed); with retention 7 and
files dated 2025-11-01 through 2025-11-17, a pass as of 2025-11-17 removes
exactly those dated on/before 2025-11-09. -/
theorem claim_C3_cleanup_filter :
    (∀ (m now : Int) (entries : List DirEntry),
      (∀ e ∈ entries, e.infoOk = true) → 0 < m →
      cleanupOldFiles m now entries =
        (entries.filter fun e =>
          !e.isDir && (fileExt e.name == ".log") &&
            decide (e.modTime < now - m * secPerDay)).map DirEntry.name) ∧
    cleanupOldFiles 7 (17 * secPerDay) novEntries =
      ["2025-11-01.log", "2025-11-02.log", "2025-11-03.log", "2025-11-04.log",
       "2025-11-05.log", "2025-11-06.log", "2025-11-07.log", "2025-11-08.log",
       "2025-11-09.log"] := by
  constructor
  · intro m now entries hinfo _hm
    rw [cleanupOldFiles, cleanupLoop_spec]
    congr 1
    apply List.filter_congr
    intro e he
    rw [hinfo e he]
    simp
  · decide

/-- C3 witness: the general characterization applied to the concrete
2025-11 scenario (retention 7, pass as of 2025-11-17). -/
theorem claim_C3_cleanup_filter_witness :
    cleanupOldFiles 7 (17 * secPerDay) novEntries =
      (novEntries.filter fun e =>
        !e.isDir && (fileExt e.name == ".log") &&
          decide (e.modTime < 17 * secPerDay - 7 * secPerDay)).map DirEntry.name :=
  claim_C3_cleanup_filter.1 7 (17 * secPerDay) novEntries (by decide) (by decide)

/-! ## Claim C5: disabled events are inert -/

/-- C5: an event created below its handler's threshold is disabled; every
field-adding call returns it unchanged (so its field storage never grows),
and the terminal calls `Msg` and `Send` make zero calls into the Formatter
and the Writer. -/
theorem claim_C5_disabled_event :
    ∀ (lg : MLogger) (level : Int) (now : GoTime),
      level < lg.handler.level →
      ((newEvent lg level now).enabled = false) ∧
      (∀ k v, (newEvent lg level now).Str k v = newEvent lg level now) ∧
      (∀ k n, (newEvent lg level now).Int k n = newEvent lg level now) ∧
      (∀ k n, (newEvent lg level now).Int64 k n = newEvent lg level now) ∧
      (∀ k r, (newEvent lg level now).Float64 k r = newEvent lg level now) ∧
      (∀ k b, (newEvent lg level now).Bool k b = newEvent lg level now) ∧
      (∀ k r, (newEvent lg level now).Time k r = newEvent lg level now) ∧
      (∀ k r, (newEvent lg level now).Dur k r = newEvent lg level now) ∧
      (∀ er, (newEvent lg level now).Err er = newEvent lg level now) ∧
      (∀ k r, (newEvent lg level now).Any k r = newEvent lg level now) ∧
      (∀ fs, (newEvent lg level now).Fields fs = newEvent lg level now) ∧
      (∀ msg caller, msgCalls (newEvent lg level now) msg caller = (0, 0)) ∧
      (∀ caller, sendCalls (newEvent lg level now) caller = (0, 0)) := by
  intro lg level now hlt
  have hen : (newEvent lg level now).enabled = false := by
    simp only [newEvent, BaseHandler.Enabled, decide_eq_false_iff_not]
    omega
  refine ⟨hen, ?_, ?_, ?_, ?_, ?_, ?_, ?_, ?_, ?_, ?_, ?_, ?_⟩
  · intro k v; simp [Event.Str, hen]
  · intro k n; simp [Event.Int, hen]
  · intro k n; simp [Event.Int64, hen]
  · intro k r; simp [Event.Float64, hen]
  · intro k b; simp [Event.Bool, hen]
  · intro k r; simp [Event.Time, hen]
  · intro k r; simp [Event.Dur, hen]
  · intro er; simp [Event.Err, hen]
  · intro k r; simp [Event.Any, hen]
  · intro fs; simp [Event.Fields, hen]
  · intro msg caller; simp [msgCalls, Event.Msg, hen]
  · intro caller; simp [sendCalls, Event.Send, Event.Msg, hen]

/-- C5 witness: an Info-level event against a Warn-threshold handler is
disabled, a `Str` call leaves it unchanged, and `Msg` reaches neither the
Formatter nor the Writer. -/
theorem claim_C5_disabled_event_witness :
    ((newEvent ⟨⟨WarnLevel⟩, []⟩ InfoLevel ⟨fun _ => "t"⟩).enabled = false) ∧
    ((newEvent ⟨⟨WarnLevel⟩, []⟩ InfoLevel ⟨fun _ => "t"⟩).Str "user" "john" =
      newEvent ⟨⟨WarnLevel⟩, []⟩ InfoLevel ⟨fun _ => "t"⟩) ∧
    msgCalls (newEvent ⟨⟨WarnLevel⟩, []⟩ InfoLevel ⟨fun _ => "t"⟩) "hello"
      ⟨"main.go", 3, "main"⟩ = (0, 0) :=
  ⟨(claim_C5_disabled_event ⟨⟨WarnLevel⟩, []⟩ InfoLevel ⟨fun _ => "t"⟩ (by decide)).1,
   (claim_C5_disabled_event ⟨⟨WarnLevel⟩, []⟩ InfoLevel ⟨fun _ => "t"⟩ (by decide)).2.1
     "user" "john",
   (claim_C5_disabled_event ⟨⟨WarnLevel⟩, []⟩ InfoLevel ⟨fun _ => "t"⟩
     (by decide)).2.2.2.2.2.2.2.2.2.2.2.1 "hello" ⟨"main.go", 3, "main"⟩⟩


/-! ## Claim C1: the daily handler's state invariant -/

/-- A successful rotation check, started from a state satisfying the
invariant, re-establishes the invariant and stores the check's date. -/
theorem rotateIfNeeded_ok (st : DailyState) (today : String) (openOk : Bool)
    (st2 : DailyState) (hinv : dailyInv st = true)
    (h : rotateIfNeeded st today openOk = (st2, true)) :
    dailyInv st2 = true ∧ st2.currentDate = today := by
  unfold rotateIfNeeded at h
  split at h
  next hc =>
    injection h with h1 _
    subst h1
    exact ⟨hinv, hc.1⟩
  next hc =>
    cases openOk with
    | false => simp at h
    | true =>
      simp only [if_true] at h
      injection h with h1 _
      subst h1
      simp [dailyInv]

/-- C1 (amended): the invariant — a held handle is an open file for the
stored current date — holds after successful construction, is preserved by
every `Write` that returns success (which also leaves the current date equal
to the rotation check's wall-clock date), and holds after `Close`; it does
NOT survive a `Write` whose file-open fails (see the counterexample). -/
theorem claim_C1_daily_invariant :
    (∀ (today : String) (openOk : Bool) (st : DailyState),
      NewDailyFileHandler today openOk = some st →
      dailyInv st = true ∧ st.currentDate = today) ∧
    (∀ (st : DailyState) (today : String) (openOk : Bool) (st2 : DailyState),
      dailyInv st = true →
      DailyFileHandler.Write st today openOk = (st2, true) →
      dailyInv st2 = true ∧ st2.currentDate = today) ∧
    (∀ st : DailyState, dailyInv (DailyFileHandler.Close st) = true) := by
  refine ⟨?_, ?_, ?_⟩
  · intro today openOk st h
    unfold NewDailyFileHandler at h
    cases hr : rotateIfNeeded { currentDate := "", currentFile := none } today openOk with
    | mk a b =>
      rw [hr] at h
      cases b with
      | false => simp at h
      | true =>
        simp only [if_true, Option.some.injEq] at h
        subst h
        exact rotateIfNeeded_ok _ today openOk _ (by rfl) hr
  · intro st today openOk st2 hinv h
    unfold DailyFileHandler.Write at h
    cases hr : rotateIfNeeded st today openOk with
    | mk a b =>
      rw [hr] at h
      cases b with
      | false => simp at h
      | true =>
        simp only [if_true] at h
        cases hcf : a.currentFile with
        | none => rw [hcf] at h; simp at h
        | some fh =>
          rw [hcf] at h
          injection h with h1 _
          subst h1
          exact rotateIfNeeded_ok st today openOk a hinv hr
  · intro st
    simp [DailyFileHandler.Close, dailyInv]

/-- C1 counterexample: constructing the handler on 2025-11-16 succeeds with
an open file; a `Write` on 2025-11-17 whose file-open fails is a public
operation after which the invariant is violated — the handle is non-null
but points at the already-closed 2025-11-16 file. -/
theorem claim_C1_daily_invariant_counterexample :
    NewDailyFileHandler "2025-11-16" true =
      some ⟨"2025-11-16", some ⟨"2025-11-16", true⟩⟩ ∧
    dailyInv (DailyFileHandler.Write ⟨"2025-11-16", some ⟨"2025-11-16", true⟩⟩
      "2025-11-17" false).1 = false := by
  decide

/-- C1 witness: the amended theorem applied to a concrete construction on
2025-11-17 and a concrete successful next-day write. -/
theorem claim_C1_daily_invariant_witness :
    (dailyInv ⟨"2025-11-17", some ⟨"2025-11-17", true⟩⟩ = true ∧
      DailyState.currentDate ⟨"2025-11-17", some ⟨"2025-11-17", true⟩⟩ = "2025-11-17") ∧
    (dailyInv ⟨"2025-11-18", some ⟨"2025-11-18", true⟩⟩ = true ∧
      DailyState.currentDate ⟨"2025-11-18", some ⟨"2025-11-18", true⟩⟩ = "2025-11-18") :=
  ⟨claim_C1_daily_invariant.1 "2025-11-17" true
      ⟨"2025-11-17", some ⟨"2025-11-17", true⟩⟩ (by decide),
   claim_C1_daily_invariant.2.1 ⟨"2025-11-17", some ⟨"2025-11-17", true⟩⟩
      "2025-11-18" true ⟨"2025-11-18", some ⟨"2025-11-18", true⟩⟩ (by decide) (by decide)⟩

/-! ## Claim C7: console field groups and the `|` delimiter -/

/-- The field-append loop equals the accumulator followed by the rendered
group, preserving insertion order. -/
theorem fieldsLoop_eq (acc : String) (fs : List Field) :
    fieldsLoop acc fs = acc ++ fieldsGroup fs := by
  induction fs generalizing acc with
  | nil => simp [fieldsLoop, fieldsGroup]
  | cons fl rest ih =>
    rw [fieldsLoop, fieldsGroup, ih, String.append_assoc]

/-- The tail of the console line after the fixed head `H`: the event group,
then — whenever the context group is non-empty — `" |"` and the context
group, then the newline. -/
theorem consoleTail_eq (H : String) (efs cfs : List Field) :
    (if cfs.length > 0 then
       fieldsLoop ((if efs.length > 0 then fieldsLoop H efs else H) ++ " |") cfs
     else (if efs.length > 0 then fieldsLoop H efs else H)) ++ "\n" =
    H ++ fieldsGroup efs ++
      (if cfs = [] then "" else " |" ++ fieldsGroup cfs) ++ "\n" := by
  cases efs with
  | nil =>
    cases cfs with
    | nil => simp [fieldsGroup]
    | cons c cs => simp [fieldsLoop_eq, fieldsGroup, String.append_assoc]
  | cons e es =>
    cases cfs with
    | nil => simp [fieldsLoop_eq, fieldsGroup, String.append_assoc]
    | cons c cs => simp [fieldsLoop_eq, fieldsGroup, String.append_assoc]

/-- C7 (amended): the console formatter renders the event fields and then
the context fields as two groups, each in original insertion order, and the
literal `|` delimiter is emitted exactly when the CONTEXT group is
non-empty — also when the event group is empty (see the counterexample,
which refutes the claim's "exactly when both groups are non-empty"). -/
theorem claim_C7_console_delimiter :
    ∀ (f : ConsoleFormatter) (entry : Entry),
      consoleFormat f entry =
        consoleHead f entry ++ fieldsGroup entry.Fields ++
          (if entry.ContextFields = [] then ""
           else " |" ++ fieldsGroup entry.ContextFields) ++ "\n" := by
  intro f entry
  simp only [consoleFormat, consoleHead]
  exact consoleTail_eq _ entry.Fields entry.ContextFields

/-- The entry of the C7 counterexample: no event fields, one context field. -/
def c7Entry : Entry :=
  { Time := ⟨fun _ => "2025-11-17 10:00:00"⟩, Level := InfoLevel, Message := "m",
    Fields := [], ContextFields := [FString "app" "x"],
    Caller := ⟨"main.go", 7, "main"⟩ }

/-- C7 counterexample: with an empty event-field group and a non-empty
context group, the `|` delimiter is still emitted, refuting "emitted exactly
when both groups are non-empty". -/
theorem claim_C7_console_delimiter_counterexample :
    c7Entry.Fields = [] ∧
    consoleFormat ⟨"", false, false, ⟨"", "", "", "", ""⟩⟩ c7Entry =
      "[2025-11-17 10:00:00] INFO  m | app=x\n" ∧
    '|' ∈ (consoleFormat ⟨"", false, false, ⟨"", "", "", "", ""⟩⟩ c7Entry).data := by
  refine ⟨rfl, rfl, by decide⟩


/-! ## Claim C8: JSON object keys -/

/-- Lookup distributes over append: the left map wins. -/
theorem mapGet_append (m1 m2 : List (String × JVal)) (k : String) :
    mapGet (m1 ++ m2) k =
      match mapGet m1 k with
      | some v => some v
      | none => mapGet m2 k := by
  induction m1 with
  | nil => rfl
  | cons kv rest ih =>
    rw [List.cons_append]
    by_cases h : kv.1 = k
    · simp only [mapGet, if_pos h]
    · simp only [mapGet, if_neg h]
      exact ih

/-- A key that no binding carries looks up to nothing. -/
theorem mapGet_of_not_any (m : List (String × JVal)) (k : String)
    (h : m.any (fun kv => decide (kv.1 = k)) = false) : mapGet m k = none := by
  induction m with
  | nil => rfl
  | cons kv rest ih =>
    rw [List.any_cons, Bool.or_eq_false_iff] at h
    have h1 : ¬ kv.1 = k := by simpa using h.1
    rw [mapGet, if_neg h1, ih h.2]

/-- Looking up the overwritten key in the overwrite pass of `mapSet`. -/
theorem mapGet_overwrite_self (m : List (String × JVal)) (k : String) (v : JVal) :
    mapGet (m.map fun kv => if kv.1 = k then (k, v) else kv) k =
      if m.any (fun kv => decide (kv.1 = k)) then some v else none := by
  induction m with
  | nil => rfl
  | cons kv rest ih =>
    rw [List.map_cons, List.any_cons]
    by_cases h : kv.1 = k
    · rw [if_pos h, mapGet, if_pos rfl,
        if_pos (by simp [h] : (decide (kv.1 = k) ||
          rest.any fun kv => decide (kv.1 = k)) = true)]
    · rw [if_neg h, mapGet, if_neg h, ih,
        (by simp [h] : (decide (kv.1 = k) || rest.any fun kv => decide (kv.1 = k)) =
          (rest.any fun kv => decide (kv.1 = k)))]

/-- The overwrite pass of `mapSet` leaves other keys' lookups unchanged. -/
theorem mapGet_overwrite_ne (m : List (String × JVal)) (k : String) (v : JVal)
    (k2 : String) (hne : k ≠ k2) :
    mapGet (m.map fun kv => if kv.1 = k then (k, v) else kv) k2 = mapGet m k2 := by
  induction m with
  | nil => rfl
  | cons kv rest ih =>
    rw [List.map_cons]
    by_cases h : kv.1 = k
    · rw [if_pos h, mapGet, mapGet, if_neg hne, if_neg (h ▸ hne), ih]
    · rw [if_neg h, mapGet, mapGet, ih]

/-- Go map assignment then lookup of the same key yields the new value. -/
theorem mapGet_mapSet_self (m : List (String × JVal)) (k : String) (v : JVal) :
    mapGet (mapSet m k v) k = some v := by
  unfold mapSet
  cases hb : m.any (fun kv => decide (kv.1 = k)) with
  | true => rw [if_pos rfl, mapGet_overwrite_self, if_pos hb]
  | false =>
    rw [if_neg (by simp), mapGet_append, mapGet_of_not_any m k hb]
    simp [mapGet]

/-- Go map assignment leaves other keys' lookups unchanged. -/
theorem mapGet_mapSet_ne (m : List (String × JVal)) (k : String) (v : JVal)
    (k2 : String) (hne : k ≠ k2) :
    mapGet (mapSet m k v) k2 = mapGet m k2 := by
  unfold mapSet
  cases hb : m.any (fun kv => decide (kv.1 = k)) with
  | true => rw [if_pos rfl, mapGet_overwrite_ne m k v k2 hne]
  | false =>
    rw [if_neg (by simp), mapGet_append]
    have h1 : mapGet [(k, v)] k2 = none := by
      simp [mapGet, hne]
    rw [h1]
    cases mapGet m k2 <;> rfl

/-- Inserting fields whose keys avoid `k` does not change `k`'s lookup. -/
theorem fieldsIntoMap_get_notin (m : List (String × JVal)) (fs : List Field)
    (k : String) (h : k ∉ fs.map Field.Key) :
    mapGet (fieldsIntoMap m fs) k = mapGet m k := by
  induction fs generalizing m with
  | nil => rfl
  | cons fl rest ih =>
    rw [List.map_cons, List.mem_cons, not_or] at h
    rw [fieldsIntoMap, ih _ h.2, mapGet_mapSet_ne _ _ _ _ (fun hh => h.1 hh.symm)]

/-- With pairwise-distinct keys, every inserted field is looked up to its
own (marshalled) value. -/
theorem fieldsIntoMap_get_mem (m : List (String × JVal)) (fs : List Field)
    (fl : Field) (hmem : fl ∈ fs) (hnd : (fs.map Field.Key).Nodup) :
    mapGet (fieldsIntoMap m fs) fl.Key = some (fieldJVal fl.Value) := by
  induction fs generalizing m with
  | nil => cases hmem
  | cons g rest ih =>
    rw [List.map_cons, List.nodup_cons] at hnd
    rw [fieldsIntoMap]
    rcases List.mem_cons.mp hmem with rfl | hmem2
    · rw [fieldsIntoMap_get_notin _ _ _ hnd.1, mapGet_mapSet_self]
    · exact ih _ hmem2 hnd.2

/-- The base map `jsonBuild` assembles before event fields and context:
timestamp, level, optional message, optional caller. -/
def jsonBase (f : JSONFormatter) (entry : Entry) : List (String × JVal) :=
  let m : List (String × JVal) := []
  let tsFmt := if f.TimestampFormat = "" then "2006-01-02T15:04:05Z07:00" else f.TimestampFormat
  let m := mapSet m "timestamp" (.jstr (entry.Time.format tsFmt))
  let m := mapSet m "level" (.jstr (levelString entry.Level))
  let m := if entry.Message ≠ "" then mapSet m "message" (.jstr entry.Message) else m
  let m := if f.AddCaller then
      mapSet m "caller" (.jstr (entry.Caller.File ++ ":" ++ toString entry.Caller.Line))
    else m
  m

/-- `jsonBuild` factors through the base map. -/
theorem jsonBuild_eq (f : JSONFormatter) (entry : Entry) :
    jsonBuild f entry =
      (if entry.ContextFields.length > 0 then
        mapSet (fieldsIntoMap (jsonBase f entry) entry.Fields) "context"
          (.jobj (fieldsIntoMap [] entry.ContextFields))
      else fieldsIntoMap (jsonBase f entry) entry.Fields) := rfl

/-- Looking up a reserved key other than `"caller"` and `"message"` in the
base map bypasses the two optional insertions. -/
theorem jsonBase_get_timestamp (f : JSONFormatter) (entry : Entry) :
    mapGet (jsonBase f entry) "timestamp" =
      some (.jstr (entry.Time.format
        (if f.TimestampFormat = "" then "2006-01-02T15:04:05Z07:00" else f.TimestampFormat))) := by
  by_cases hc : f.AddCaller = true <;> by_cases hm : entry.Message = "" <;>
    simp [jsonBase, hc, hm, mapGet_mapSet_ne, mapGet_mapSet_self]

/-- The base map always carries the level under `"level"`. -/
theorem jsonBase_get_level (f : JSONFormatter) (entry : Entry) :
    mapGet (jsonBase f entry) "level" = some (.jstr (levelString entry.Level)) := by
  by_cases hc : f.AddCaller = true <;> by_cases hm : entry.Message = "" <;>
    simp [jsonBase, hc, hm, mapGet_mapSet_ne, mapGet_mapSet_self]

/-- The base map carries `"message"` exactly when the message is non-empty. -/
theorem jsonBase_get_message (f : JSONFormatter) (entry : Entry) :
    mapGet (jsonBase f entry) "message" =
      (if entry.Message = "" then none else some (.jstr entry.Message)) := by
  by_cases hc : f.AddCaller = true <;> by_cases hm : entry.Message = "" <;>
    simp [jsonBase, hc, hm, mapGet_mapSet_ne, mapGet_mapSet_self, mapGet]

/-- The base map never carries `"context"`. -/
theorem jsonBase_get_context (f : JSONFormatter) (entry : Entry) :
    mapGet (jsonBase f entry) "context" = none := by
  by_cases hc : f.AddCaller = true <;> by_cases hm : entry.Message = "" <;>
    simp [jsonBase, hc, hm, mapGet_mapSet_ne, mapGet_mapSet_self, mapGet]

/-- The reserved top-level keys of the JSON object. -/
def reservedKeys : List String := ["timestamp", "level", "message", "caller", "context"]

/-- C8 (amended): provided the event-field keys are pairwise distinct and
avoid the reserved keys (collisions are last-write-wins, unarbitrated — see
the counterexample), the JSON formatter's object always carries `timestamp`
and `level`, carries `message` exactly when the message is non-empty, one
top-level key per event field with its value, and the nested `context`
object exactly when context fields are non-empty. -/
theorem claim_C8_json_keys :
    ∀ (f : JSONFormatter) (entry : Entry),
      (∀ fl ∈ entry.Fields, fl.Key ∉ reservedKeys) →
      (entry.Fields.map Field.Key).Nodup →
      ((mapGet (jsonBuild f entry) "timestamp").isSome = true) ∧
      (mapGet (jsonBuild f entry) "level" = some (.jstr (levelString entry.Level))) ∧
      (entry.Message = "" → mapGet (jsonBuild f entry) "message" = none) ∧
      (entry.Message ≠ "" →
        mapGet (jsonBuild f entry) "message" = some (.jstr entry.Message)) ∧
      (∀ fl ∈ entry.Fields,
        mapGet (jsonBuild f entry) fl.Key = some (fieldJVal fl.Value)) ∧
      ((mapGet (jsonBuild f entry) "context").isSome = true ↔
        entry.ContextFields ≠ []) := by
  intro f entry hres hnd
  have hts : "timestamp" ∉ entry.Fields.map Field.Key := by
    intro hmem
    obtain ⟨fl, hfl, hkey⟩ := List.mem_map.mp hmem
    exact hres fl hfl (by rw [hkey]; simp [reservedKeys])
  have hlv : "level" ∉ entry.Fields.map Field.Key := by
    intro hmem
    obtain ⟨fl, hfl, hkey⟩ := List.mem_map.mp hmem
    exact hres fl hfl (by rw [hkey]; simp [reservedKeys])
  have hms : "message" ∉ entry.Fields.map Field.Key := by
    intro hmem
    obtain ⟨fl, hfl, hkey⟩ := List.mem_map.mp hmem
    exact hres fl hfl (by rw [hkey]; simp [reservedKeys])
  have hcx : "context" ∉ entry.Fields.map Field.Key := by
    intro hmem
    obtain ⟨fl, hfl, hkey⟩ := List.mem_map.mp hmem
    exact hres fl hfl (by rw [hkey]; simp [reservedKeys])
  rw [jsonBuild_eq]
  by_cases hctx : entry.ContextFields.length > 0
  · rw [if_pos hctx]
    refine ⟨?_, ?_, ?_, ?_, ?_, ?_⟩
    · rw [mapGet_mapSet_ne _ _ _ _ (by decide), fieldsIntoMap_get_notin _ _ _ hts,
        jsonBase_get_timestamp]
      rfl
    · rw [mapGet_mapSet_ne _ _ _ _ (by decide), fieldsIntoMap_get_notin _ _ _ hlv,
        jsonBase_get_level]
    · intro hm
      rw [mapGet_mapSet_ne _ _ _ _ (by decide), fieldsIntoMap_get_notin _ _ _ hms,
        jsonBase_get_message, if_pos hm]
    · intro hm
      rw [mapGet_mapSet_ne _ _ _ _ (by decide), fieldsIntoMap_get_notin _ _ _ hms,
        jsonBase_get_message, if_neg hm]
    · intro fl hfl
      have hne : "context" ≠ fl.Key := by
        intro hh
        exact hres fl hfl (by rw [← hh]; simp [reservedKeys])
      rw [mapGet_mapSet_ne _ _ _ _ hne, fieldsIntoMap_get_mem _ _ _ hfl hnd]
    · rw [mapGet_mapSet_self]
      constructor
      · intro _ hnil
        rw [hnil] at hctx
        simp at hctx
      · intro _
        rfl
  · rw [if_neg hctx]
    have hnil : entry.ContextFields = [] := by
      cases hc : entry.ContextFields with
      | nil => rfl
      | cons a l => rw [hc] at hctx; simp at hctx
    refine ⟨?_, ?_, ?_, ?_, ?_, ?_⟩
    · rw [fieldsIntoMap_get_notin _ _ _ hts, jsonBase_get_timestamp]
      rfl
    · rw [fieldsIntoMap_get_notin _ _ _ hlv, jsonBase_get_level]
    · intro hm
      rw [fieldsIntoMap_get_notin _ _ _ hms, jsonBase_get_message, if_pos hm]
    · intro hm
      rw [fieldsIntoMap_get_notin _ _ _ hms, jsonBase_get_message, if_neg hm]
    · intro fl hfl
      exact fieldsIntoMap_get_mem _ _ _ hfl hnd
    · rw [fieldsIntoMap_get_notin _ _ _ hcx, jsonBase_get_context]
      simp [hnil]

/-- The entry of the C8 counterexample: an event field whose key is the
reserved name `context`, and no context fields. -/
def c8EntryBad : Entry :=
  { Time := ⟨fun _ => "T"⟩, Level := InfoLevel, Message := "hi",
    Fields := [FString "context" "x"], ContextFields := [],
    Caller := ⟨"main.go", 7, "main"⟩ }

/-- C8 counterexample: with no context fields but an event field keyed
`context`, the object still carries a `context` key (holding the field's
string, not a nested object), refuting "present exactly when context fields
are non-empty" as universally stated. -/
theorem claim_C8_json_keys_counterexample :
    c8EntryBad.ContextFields = [] ∧
    mapGet (jsonBuild ⟨"", false⟩ c8EntryBad) "context" = some (JVal.jstr "x") :=
  ⟨rfl, rfl⟩

/-- The entry of the C8 witness: event fields `a = 1` (Int) and `b = "x"`
(String), no context fields. -/
def c8EntryGood : Entry :=
  { Time := ⟨fun _ => "T"⟩, Level := InfoLevel, Message := "hello",
    Fields := [FInt "a" 1, FString "b" "x"], ContextFields := [],
    Caller := ⟨"main.go", 7, "main"⟩ }

/-- C8 witness: the amended theorem applied to the round-trip example —
top-level keys `a = 1` and `b = "x"`, and no `context` key. -/
theorem claim_C8_json_keys_witness :
    mapGet (jsonBuild ⟨"", false⟩ c8EntryGood) "a" = some (JVal.jint 1) ∧
    mapGet (jsonBuild ⟨"", false⟩ c8EntryGood) "b" = some (JVal.jstr "x") ∧
    ¬ ((mapGet (jsonBuild ⟨"", false⟩ c8EntryGood) "context").isSome = true) :=
  ⟨(claim_C8_json_keys ⟨"", false⟩ c8EntryGood (by decide) (by decide)).2.2.2.2.1
      (FInt "a" 1) (by decide),
   (claim_C8_json_keys ⟨"", false⟩ c8EntryGood (by decide) (by decide)).2.2.2.2.1
      (FString "b" "x") (by decide),
   fun h =>
     ((claim_C8_json_keys ⟨"", false⟩ c8EntryGood (by decide) (by decide)).2.2.2.2.2.mp h)
       rfl⟩

end Logpy
